import Mathlib

/-!
Verification of the media path resolver and range-aware byte streamer of
`music_player_backend` (file `src/api/routes_songs.py`).

Strings are modelled as `List Char`; filesystem paths are modelled as lists
of path segments (`List (List Char)`); file contents are modelled as lists
of bytes (`List α` for an arbitrary element type `α`).  Python `int` values
are modelled as Lean `Int`.
-/

namespace MusicLib

/-! ### Python string primitives -/

/-- The whitespace characters removed by Python's `str.strip()` (ASCII part). -/
def isPyWhitespace (c : Char) : Bool :=
  c = ' ' || c = '\t' || c = '\n' || c = '\r' || c = '\x0b' || c = '\x0c'

/-- Python `str.strip()`: drop leading and trailing whitespace. -/
def pyStrip (s : List Char) : List Char :=
  ((s.dropWhile isPyWhitespace).reverse.dropWhile isPyWhitespace).reverse

/-- Python `s.split(sep, 1)` followed by padding with `""`:
`(spec.split("-", 1) + [""])[:2]` in the source.  When `sep` does not occur
the second component is empty, exactly as in the Python expression. -/
def splitFirst (sep : Char) : List Char → List Char × List Char
  | [] => ([], [])
  | c :: rest =>
    if c = sep then ([], rest)
    else
      let p := splitFirst sep rest
      (c :: p.1, p.2)

/-- Numeric value of an ASCII digit. -/
def digitVal (c : Char) : Nat := c.toNat - 48

/-- Digit string accumulator for Python `int()`: digits, with single
underscores allowed between digits (Python 3.6+ literal grammar). -/
def pyDigitsAux (acc : Nat) : List Char → Option Nat
  | [] => some acc
  | c :: rest =>
    if c.isDigit then pyDigitsAux (acc * 10 + digitVal c) rest
    else if c = '_' then
      match rest with
      | [] => none
      | d :: rest2 =>
        if d.isDigit then pyDigitsAux (acc * 10 + digitVal d) rest2 else none
    else none

/-- Digit string for Python `int()`: non-empty, must start with a digit. -/
def pyDigits : List Char → Option Nat
  | [] => none
  | c :: rest => if c.isDigit then pyDigitsAux (digitVal c) rest else none

/-- Python `int(s)` on an already-stripped string: optional sign followed by
digits (ASCII); `none` models the `ValueError` path. -/
def pyInt : List Char → Option Int
  | '+' :: rest => (pyDigits rest).map (fun n => (n : Int))
  | '-' :: rest => (pyDigits rest).map (fun n => -(n : Int))
  | s => (pyDigits s).map (fun n => (n : Int))

/-! ### `_parse_range_header` -/

/-- The part of `_parse_range_header` after the spec has been split on the
first `-` and both parts stripped: the suffix-range branch and the explicit
start/end branch, including all rejection checks, in source order. -/
def rangeFromParts (startS endS : List Char) (fileSize : Int) : Option (Int × Int) :=
  if startS = [] ∧ endS = [] then none
  else if startS = [] then
    -- suffix range: last N bytes
    match pyInt endS with
    | none => none
    | some suffixLen =>
      if suffixLen ≤ 0 then none
      else some (max (fileSize - suffixLen) 0, fileSize - 1)
  else
    match pyInt startS with
    | none => none
    | some start =>
      if start < 0 then none
      else
        match (if endS = [] then some (fileSize - 1) else pyInt endS) with
        | none => none
        | some e =>
          if e < start then none
          else if fileSize ≤ start then none
          else some (start, min e (fileSize - 1))

/-- `_parse_range_header(range_header, file_size)`: parse a single HTTP Range
header `bytes=start-end`; `none` means "serve full content". -/
def parseRangeHeader (rangeHeader : List Char) (fileSize : Int) : Option (Int × Int) :=
  if rangeHeader = [] then none
  else if ("bytes=".toList).isPrefixOf rangeHeader = false then none
  else
    let spec := pyStrip (rangeHeader.drop 6)
    if spec.contains ',' then none
    else
      let p := splitFirst '-' spec
      rangeFromParts (pyStrip p.1) (pyStrip p.2) fileSize

/-! ### `_sanitize_filename` -/

/-- The character class kept by the sanitizer's regular expression
`[A-Za-z0-9._-]`. -/
def isAllowed (c : Char) : Bool :=
  c.isAlpha || c.isDigit || c = '.' || c = '_' || c = '-'

/-- `re.sub(r"[^A-Za-z0-9._-]+", "_", s)`: each maximal run of characters
outside the class is replaced by a single underscore.  The boolean records
whether the previous character belonged to a disallowed run. -/
def subRun (prevBad : Bool) : List Char → List Char
  | [] => []
  | c :: rest =>
    if isAllowed c then c :: subRun false rest
    else if prevBad then subRun true rest
    else '_' :: subRun true rest

/-- `_sanitize_filename(name)`: strip, replace path separators with `_`,
apply the regex substitution, and fall back to `"upload.mp3"` if empty. -/
def sanitizeFilename (name : List Char) : List Char :=
  let s1 := pyStrip name
  let s2 := s1.map (fun c => if c = '\\' || c = '/' then '_' else c)
  let s3 := subRun false s2
  if s3 = [] then "upload.mp3".toList else s3

/-- The sanitizer as the spec sentence reads: every single character outside
`[A-Za-z0-9._-]` becomes one underscore of its own (no run collapsing).
Used only to compare the spec's wording with the code's behaviour. -/
def sanitizeFilenamePerChar (name : List Char) : List Char :=
  let s1 := pyStrip name
  let s2 := s1.map (fun c => if c = '\\' || c = '/' then '_' else c)
  let s3 := s2.map (fun c => if isAllowed c then c else '_')
  if s3 = [] then "upload.mp3".toList else s3

/-! ### Path model and `_resolve_song_media_path`

A filesystem path is a list of segments from the root.  `pathlib.Path`
construction drops empty segments and single dots; `Path.resolve()`
collapses `..` segments lexically (symlinks are out of scope).  The media
root and backend root are `resolve()`d absolute paths, hence given as
segment lists. -/

/-- Split a string on `/`, keeping empty pieces (raw `str.split("/")`). -/
def splitOnSlash : List Char → List (List Char)
  | [] => [[]]
  | c :: rest =>
    match splitOnSlash rest with
    | [] => [[c]]
    | r :: rs => if c = '/' then [] :: r :: rs else (c :: r) :: rs

/-- Segments of a relative `pathlib.Path`: empty segments and `.` are
dropped at construction, `..` is kept. -/
def relSegs (s : List Char) : List (List Char) :=
  (splitOnSlash s).filter (fun seg => !(seg == []) && !(seg == ['.']))

/-- `Path(s).is_absolute()` on POSIX: the string starts with `/`. -/
def isAbsolute : List Char → Bool
  | [] => false
  | c :: _ => c == '/'

/-- One step of lexical normalization: `..` removes the previous segment
(at the root it is dropped), any other segment is appended. -/
def normStep (acc : List (List Char)) (seg : List Char) : List (List Char) :=
  if seg = ['.', '.'] then acc.dropLast else acc ++ [seg]

/-- Lexical normalization done by `Path.resolve()`: process segments left to
right with `normStep`. -/
def normSegs (segs : List (List Char)) : List (List Char) :=
  segs.foldl normStep []

/-- The structured detail raised by `_json_404`. -/
structure JsonError where
  error : String
  message : String
deriving DecidableEq

/-- `_json_404(detail)`: a 404 with body `{error: "not_found", message: detail}`. -/
def json404 (msg : String) : JsonError :=
  ⟨"not_found", msg⟩

/-- Abstract filesystem: which paths are existing regular files
(`Path.is_file()`). -/
structure FSModel where
  isFile : List (List Char) → Bool

/-- `_resolve_song_media_path(song_filename)`, with the media root, backend
root and filesystem made explicit parameters.  `Except.error` models the
`HTTPException` raised by `_json_404`. -/
def resolveSongMediaPath (fsm : FSModel) (mediaRoot backendRoot : List (List Char))
    (songFilename : List Char) : Except JsonError (List (List Char)) :=
  if songFilename = [] then .error (json404 "File missing on server.")
  else if isAbsolute songFilename then .ok (relSegs songFilename)
  else
    let candidate := normSegs (mediaRoot ++ relSegs songFilename)
    if mediaRoot.isPrefixOf candidate = false then
      -- Path traversal attempt or bad stored filename.
      .error (json404 "File missing on server.")
    else if fsm.isFile candidate then .ok candidate
    else
      -- Fallback search for preview/runtime path differences.
      let fb1 := normSegs (backendRoot ++ ("media".toList :: relSegs songFilename))
      let fb2 := normSegs (backendRoot ++ relSegs songFilename)
      match [fb1, fb2].find? (fun fb => backendRoot.isPrefixOf fb && fsm.isFile fb) with
      | some fb => .ok fb
      | none => .ok candidate

/-! ### `_iter_file_range` and the streaming response -/

/-- The read loop of `_iter_file_range` after the seek: `pos` is the file
cursor, `remaining = end - start + 1`.  `f.read(n)` returns the next
`min n available` bytes; an empty read breaks the loop. -/
def goChunks (chunkSize : Nat) (file : List α) (pos remaining : Nat) : List (List α) :=
  if h : remaining = 0 then []
  else
    let toRead := min chunkSize remaining
    let chunk := (file.drop pos).take toRead
    if hch : chunk.length = 0 then []
    else chunk :: goChunks chunkSize file (pos + chunk.length) (remaining - chunk.length)
termination_by remaining
decreasing_by
  exact Nat.sub_lt (Nat.pos_of_ne_zero h) (Nat.pos_of_ne_zero hch)

/-- `_iter_file_range(path, start, end, chunk_size)`: the chunks yielded for
the inclusive byte window `[start, end]`. -/
def iterFileRange (file : List α) (start end_ : Nat) (chunkSize : Nat) : List (List α) :=
  goChunks chunkSize file start (end_ - start + 1)

/-- The parts of a streaming response the claims are about: status code,
the optional `Content-Range` header, the `Content-Length` header, and the
chunked body. -/
structure StreamResponse (α : Type) where
  status : Nat
  contentRange : Option String
  contentLength : Int
  body : List (List α)

/-- The header value `f"bytes {start}-{end}/{file_size}"`. -/
def contentRangeValue (start end_ fileSize : Int) : String :=
  "bytes " ++ toString start ++ "-" ++ toString end_ ++ "/" ++ toString fileSize

/-- The 206 branch of `stream_song` for a validated byte range. -/
def streamRangeResponse (file : List α) (start end_ : Int) (chunkSize : Nat) :
    StreamResponse α :=
  ⟨206, some (contentRangeValue start end_ (file.length : Int)), end_ - start + 1,
    iterFileRange file start.toNat end_.toNat chunkSize⟩

/-- The serving tail of `stream_song`, from the `is_file` check onwards:
404 when the path is not a regular file, 404 when the size is `<= 0`,
otherwise 206 with the parsed range or 200 with the full content. -/
def streamSongServe (isFile : Bool) (file : List α) (rangeHeader : List Char)
    (chunkSize : Nat) : Except JsonError (StreamResponse α) :=
  if isFile = false then .error (json404 "File missing on server.")
  else if (file.length : Int) ≤ 0 then
    -- If file is empty, treat as missing/corrupt rather than streaming.
    .error (json404 "File missing on server.")
  else
    match parseRangeHeader rangeHeader (file.length : Int) with
    | some (s, e) => .ok (streamRangeResponse file s e chunkSize)
    | none => .ok ⟨200, none, (file.length : Int), iterFileRange file 0 (file.length - 1) chunkSize⟩

/-- `upload_song`'s stored filename: `f"{song_id}_{safe_name}"` where
`song_id` is a UUID4 and `safe_name = _sanitize_filename(file.filename)`. -/
def storedFilenameFor (uuidStr : List Char) (origName : List Char) : List Char :=
  uuidStr ++ '_' :: sanitizeFilename origName

/-- Characters appearing in `str(uuid.uuid4())`: lowercase hex digits and
dashes. -/
def isUuidChar (c : Char) : Bool :=
  c.isDigit || ('a' ≤ c && c ≤ 'f') || c = '-'

/-! ### Helper lemmas -/

lemma take_add_split {α : Type} : ∀ (m n : Nat) (l : List α),
    l.take (m + n) = l.take m ++ (l.drop m).take n := by
  intro m
  induction m with
  | zero => intro n l; simp
  | succ m ih =>
    intro n l
    cases l with
    | nil => simp
    | cons c t =>
      have : m + 1 + n = (m + n) + 1 := by omega
      rw [this]
      simp only [List.take_succ_cons, List.drop_succ_cons, List.cons_append, ih m.succ t]
      rw [ih n t]

lemma take_min_length {α : Type} (l : List α) (n : Nat) :
    l.take n = l.take (min n l.length) := by
  rcases Nat.le_total n l.length with h | h
  · rw [Nat.min_eq_left h]
  · rw [Nat.min_eq_right h, List.take_of_length_le h, List.take_length]

/-- The flattened chunk list of the read loop is exactly the requested
window of the file (truncated by end-of-file). -/
lemma goChunks_flatten {α : Type} (chunkSize : Nat) (hc : 1 ≤ chunkSize) (file : List α) :
    ∀ remaining pos, (goChunks chunkSize file pos remaining).flatten =
      (file.drop pos).take remaining := by
  intro remaining
  induction remaining using Nat.strong_induction_on with
  | _ r ih =>
    intro pos
    rw [goChunks]
    split
    · rename_i h0
      subst h0
      simp
    · rename_i h0
      dsimp only
      split
      · rename_i hch
        -- the read returned nothing: the seek position is at or past EOF
        have htr : 1 ≤ min chunkSize r := by
          have : 1 ≤ r := Nat.one_le_iff_ne_zero.mpr h0
          omega
        rw [List.length_take] at hch
        have hlen : (file.drop pos).length = 0 := by omega
        have : file.drop pos = [] := List.length_eq_zero.mp hlen
        simp [this]
      · rename_i hch
        set l := file.drop pos with hl
        set toRead := min chunkSize r with htr
        set k := (l.take toRead).length with hk
        have hkval : k = min toRead l.length := by rw [hk, List.length_take]
        have hkr : k ≤ r := by
          have : toRead ≤ r := by omega
          omega
        have hrec := ih (r - k) (by
          have h1 : 1 ≤ r := Nat.one_le_iff_ne_zero.mpr h0
          have h2 : 1 ≤ k := Nat.one_le_iff_ne_zero.mpr hch
          omega) (pos + k)
        rw [List.flatten_cons, hrec]
        have hdd : file.drop (pos + k) = l.drop k := by
          rw [hl, List.drop_drop, Nat.add_comm]
        rw [hdd]
        have hchunk : l.take toRead = l.take k := by
          rw [take_min_length l toRead, hkval]
        rw [hchunk]
        have hsplit : l.take r = l.take k ++ (l.drop k).take (r - k) := by
          conv_lhs => rw [show r = k + (r - k) by omega]
          exact take_add_split k (r - k) l
        rw [hsplit]

/-- Every chunk produced by the read loop has length at most `chunkSize`. -/
lemma goChunks_chunk_le {α : Type} (chunkSize : Nat) (file : List α) :
    ∀ remaining pos ch, ch ∈ goChunks chunkSize file pos remaining →
      ch.length ≤ chunkSize := by
  intro remaining
  induction remaining using Nat.strong_induction_on with
  | _ r ih =>
    intro pos ch hmem
    rw [goChunks] at hmem
    split at hmem
    · simp at hmem
    · rename_i h0
      dsimp only at hmem
      split at hmem
      · simp at hmem
      · rename_i hch
        rcases List.mem_cons.mp hmem with hx | hx
        · subst hx
          rw [List.length_take]
          omega
        · exact ih _ (Nat.sub_lt (Nat.pos_of_ne_zero h0) (Nat.pos_of_ne_zero hch)) _ _ hx

/-- Any pair accepted by the post-split core satisfies the ByteRange
invariant `0 ≤ start ≤ end ≤ fileSize - 1`. -/
lemma rangeFromParts_bounds (startS endS : List Char) (fileSize : Int)
    (hfs : 1 ≤ fileSize) (a b : Int)
    (h : rangeFromParts startS endS fileSize = some (a, b)) :
    0 ≤ a ∧ a ≤ b ∧ b ≤ fileSize - 1 := by
  unfold rangeFromParts at h
  by_cases h1 : startS = [] ∧ endS = []
  · rw [if_pos h1] at h
    exact absurd h (by simp)
  · rw [if_neg h1] at h
    by_cases h2 : startS = []
    · rw [if_pos h2] at h
      cases hpi : pyInt endS with
      | none => rw [hpi] at h; exact absurd h (by simp)
      | some n =>
        rw [hpi] at h
        dsimp only at h
        by_cases h3 : n ≤ 0
        · rw [if_pos h3] at h
          exact absurd h (by simp)
        · rw [if_neg h3] at h
          simp only [Option.some.injEq, Prod.mk.injEq] at h
          obtain ⟨ha, hb⟩ := h
          subst ha
          subst hb
          omega
    · rw [if_neg h2] at h
      cases hpi : pyInt startS with
      | none => rw [hpi] at h; exact absurd h (by simp)
      | some start =>
        rw [hpi] at h
        dsimp only at h
        by_cases h3 : start < 0
        · rw [if_pos h3] at h
          exact absurd h (by simp)
        · rw [if_neg h3] at h
          cases hpe : (if endS = [] then some (fileSize - 1) else pyInt endS) with
          | none => rw [hpe] at h; exact absurd h (by simp)
          | some e =>
            rw [hpe] at h
            dsimp only at h
            by_cases h4 : e < start
            · rw [if_pos h4] at h
              exact absurd h (by simp)
            · rw [if_neg h4] at h
              by_cases h5 : fileSize ≤ start
              · rw [if_pos h5] at h
                exact absurd h (by simp)
              · rw [if_neg h5] at h
                simp only [Option.some.injEq, Prod.mk.injEq] at h
                obtain ⟨ha, hb⟩ := h
                subst ha
                subst hb
                omega

/-- Lift of `rangeFromParts_bounds` to the full header parser. -/
lemma parseRangeHeader_bounds (rangeHeader : List Char) (fileSize : Int)
    (hfs : 1 ≤ fileSize) (a b : Int)
    (h : parseRangeHeader rangeHeader fileSize = some (a, b)) :
    0 ≤ a ∧ a ≤ b ∧ b ≤ fileSize - 1 := by
  unfold parseRangeHeader at h
  split at h
  · exact absurd h (by simp)
  · split at h
    · exact absurd h (by simp)
    · dsimp only at h
      split at h
      · exact absurd h (by simp)
      · exact rangeFromParts_bounds _ _ _ hfs _ _ h

/-- `isPrefixOf` accepts any extension of the list itself. -/
lemma isPrefixOf_append_self {α : Type} [BEq α] [LawfulBEq α] (l t : List α) :
    l.isPrefixOf (l ++ t) = true := by
  induction l with
  | nil => simp
  | cons c l ih => simp [List.isPrefixOf, ih]

/-- Folding `normStep` over dot-dot-free segments just appends them. -/
lemma foldl_normStep_no_dotdot (q : List (List Char)) :
    ∀ acc, (∀ s ∈ q, s ≠ ['.', '.']) → q.foldl normStep acc = acc ++ q := by
  induction q with
  | nil => intro acc _; simp
  | cons s t ih =>
    intro acc hq
    have hs : s ≠ ['.', '.'] := hq s (List.mem_cons_self s t)
    have ht : ∀ x ∈ t, x ≠ ['.', '.'] := fun x hx => hq x (List.mem_cons_of_mem s hx)
    simp only [List.foldl_cons, normStep, if_neg hs]
    rw [ih (acc ++ [s]) ht]
    simp

/-- Normalizing a clean root joined with dot-dot-free relative segments is
plain concatenation. -/
lemma normSegs_append_clean (p q : List (List Char))
    (hq : ∀ s ∈ p ++ q, s ≠ ['.', '.']) : normSegs (p ++ q) = p ++ q := by
  unfold normSegs
  exact foldl_normStep_no_dotdot (p ++ q) [] hq

/-- Every character emitted by the regex substitution is in the allowed
class (the inserted `_` itself is allowed). -/
lemma subRun_mem_allowed : ∀ (l : List Char) (b : Bool) (c : Char),
    c ∈ subRun b l → isAllowed c = true := by
  intro l
  induction l with
  | nil => intro b c h; exact absurd h (by simp [subRun])
  | cons x rest ih =>
    intro b c h
    unfold subRun at h
    split at h
    · rename_i hx
      rcases List.mem_cons.mp h with rfl | hmem
      · exact hx
      · exact ih false c hmem
    · split at h
      · exact ih true c h
      · rcases List.mem_cons.mp h with rfl | hmem
        · rfl
        · exact ih true c hmem

/-- Every character of a sanitized filename is in `[A-Za-z0-9._-]`. -/
lemma sanitizeFilename_mem_allowed (name : List Char) (c : Char)
    (h : c ∈ sanitizeFilename name) : isAllowed c = true := by
  unfold sanitizeFilename at h
  dsimp only at h
  split at h
  · -- default name "upload.mp3"
    fin_cases h <;> rfl
  · exact subRun_mem_allowed _ _ _ h

/-- A sanitized filename is never empty. -/
lemma sanitizeFilename_ne_nil (name : List Char) : sanitizeFilename name ≠ [] := by
  unfold sanitizeFilename
  dsimp only
  split
  · simp
  · assumption

/-- Splitting a slash-free string yields the single piece. -/
lemma splitOnSlash_no_slash : ∀ (l : List Char), '/' ∉ l → splitOnSlash l = [l] := by
  intro l
  induction l with
  | nil => intro _; rfl
  | cons c rest ih =>
    intro h
    have hc : c ≠ '/' := fun hx => h (hx ▸ List.mem_cons_self c rest)
    have hr : '/' ∉ rest := fun hx => h (List.mem_cons_of_mem c hx)
    unfold splitOnSlash
    rw [ih hr]
    simp [hc]

/-- Allowed characters are never path separators. -/
lemma isAllowed_ne_sep (c : Char) (h : isAllowed c = true) : c ≠ '/' ∧ c ≠ '\\' :=
  ⟨fun hc => by subst hc; exact absurd h (by decide),
   fun hc => by subst hc; exact absurd h (by decide)⟩

/-- UUID characters are never path separators. -/
lemma isUuidChar_ne_sep (c : Char) (h : isUuidChar c = true) : c ≠ '/' ∧ c ≠ '\\' :=
  ⟨fun hc => by subst hc; exact absurd h (by decide),
   fun hc => by subst hc; exact absurd h (by decide)⟩

/-- Reduction of `rangeFromParts` once the start part is known to parse as a
non-negative integer. -/
lemma rangeFromParts_start_some (startS endS : List Char) (fileSize : Int) (n : Int)
    (hS : startS ≠ []) (hn : pyInt startS = some n) (hnn : 0 ≤ n) :
    rangeFromParts startS endS fileSize =
      match (if endS = [] then some (fileSize - 1) else pyInt endS) with
      | none => none
      | some e =>
        if e < n then none
        else if fileSize ≤ n then none
        else some (n, min e (fileSize - 1)) := by
  unfold rangeFromParts
  rw [if_neg (fun hand => hS hand.1), if_neg hS, hn]
  dsimp only
  rw [if_neg (by omega)]

/-- Reduction of `rangeFromParts` in the suffix-range branch. -/
lemma rangeFromParts_suffix (endS : List Char) (fileSize : Int) (hE : endS ≠ []) :
    rangeFromParts [] endS fileSize =
      match pyInt endS with
      | none => none
      | some suffixLen =>
        if suffixLen ≤ 0 then none
        else some (max (fileSize - suffixLen) 0, fileSize - 1) := by
  unfold rangeFromParts
  rw [if_neg (fun hand => hE hand.2), if_pos rfl]

/-! ### Claim theorems -/

/-- C3: for every header string and every `fileSize ≥ 1`, whenever
`_parse_range_header` returns a pair `(start, end)` rather than `None`, the
ByteRange invariant `0 ≤ start ≤ end ≤ fileSize - 1` holds, on every
acceptance path. -/
theorem claim_C3_byte_range_invariant (rangeHeader : List Char) (fileSize : Int)
    (hfs : 1 ≤ fileSize) (a b : Int)
    (h : parseRangeHeader rangeHeader fileSize = some (a, b)) :
    0 ≤ a ∧ a ≤ b ∧ b ≤ fileSize - 1 :=
  parseRangeHeader_bounds rangeHeader fileSize hfs a b h

/-- Witness for C3 at the header `bytes=2-5` and file size 10. -/
theorem claim_C3_byte_range_invariant_witness :
    (1 : Int) ≤ 10
    ∧ parseRangeHeader "bytes=2-5".toList 10 = some (2, 5)
    ∧ (0 ≤ (2 : Int) ∧ (2 : Int) ≤ 5 ∧ (5 : Int) ≤ 10 - 1) :=
  ⟨by decide, by decide,
    claim_C3_byte_range_invariant "bytes=2-5".toList 10 (by decide) 2 5 (by decide)⟩

/-- C4: for `fileSize ≥ 1` and a present start part parsing as a
non-negative integer `n`: an empty end part yields `end = fileSize - 1`
(unless `n ≥ fileSize`, which is rejected); a parsed end `e` is rejected
when `e < n` or `n ≥ fileSize` and otherwise clamped to `fileSize - 1`;
any `n ≥ fileSize` yields `None`; and `bytes=500-100` against file size
1000 yields `None`. -/
theorem claim_C4_start_end_rules (fileSize : Int) (startS endS : List Char) (n : Int)
    (hfs : 1 ≤ fileSize) (hS : startS ≠ []) (hn : pyInt startS = some n) (hnn : 0 ≤ n) :
    (endS = [] → rangeFromParts startS endS fileSize =
      (if n < fileSize then some (n, fileSize - 1) else none))
    ∧ (∀ e : Int, pyInt endS = some e → endS ≠ [] →
        ((e < n → rangeFromParts startS endS fileSize = none)
          ∧ (fileSize ≤ n → rangeFromParts startS endS fileSize = none)
          ∧ (n ≤ e → n < fileSize →
              rangeFromParts startS endS fileSize = some (n, min e (fileSize - 1)))))
    ∧ (fileSize ≤ n → rangeFromParts startS endS fileSize = none)
    ∧ parseRangeHeader "bytes=500-100".toList 1000 = none := by
  have hred := rangeFromParts_start_some startS endS fileSize n hS hn hnn
  refine ⟨?_, ?_, ?_, by decide⟩
  · intro hE
    rw [hred, if_pos hE]
    dsimp only
    by_cases hlt : n < fileSize
    · rw [if_neg (by omega), if_neg (by omega), if_pos hlt, min_self]
    · rw [if_pos (by omega)]
      rw [if_neg hlt]
  · intro e he hE
    rw [hred, if_neg hE, he]
    dsimp only
    refine ⟨?_, ?_, ?_⟩
    · intro hlt
      rw [if_pos hlt]
    · intro hge
      by_cases hlt : e < n
      · rw [if_pos hlt]
      · rw [if_neg hlt, if_pos hge]
    · intro hle hfsn
      rw [if_neg (by omega), if_neg (by omega)]
  · intro hge
    rw [hred]
    by_cases hE : endS = []
    · rw [if_pos hE]
      dsimp only
      by_cases hlt : fileSize - 1 < n
      · rw [if_pos hlt]
      · rw [if_neg hlt, if_pos hge]
    · rw [if_neg hE]
      cases hpe : pyInt endS with
      | none => rfl
      | some e =>
        dsimp only
        by_cases hlt : e < n
        · rw [if_pos hlt]
        · rw [if_neg hlt, if_pos hge]

/-- Witness for C4 at start part `"2"`, end part `"5"`, file size 10. -/
theorem claim_C4_start_end_rules_witness :
    ((1 : Int) ≤ 10 ∧ ("2".toList : List Char) ≠ [] ∧ pyInt "2".toList = some 2 ∧ 0 ≤ (2 : Int))
    ∧ rangeFromParts "2".toList "5".toList 10 = some (2, min 5 (10 - 1)) := by
  have h := claim_C4_start_end_rules 10 "2".toList "5".toList 2
    (by decide) (by decide) (by decide) (by decide)
  exact ⟨⟨by decide, by decide, by decide, by decide⟩,
    (h.2.1 5 (by decide) (by decide)).2.2 (by decide) (by decide)⟩

/-- C5: for `fileSize ≥ 1` and a suffix-range spec (empty start part): a
parsed positive `N` yields `(max(fileSize - N, 0), fileSize - 1)`, equal to
`(fileSize - N, fileSize - 1)` when `0 < N ≤ fileSize`; a parsed `N ≤ 0`
or a parse failure yields `None`. -/
theorem claim_C5_suffix_range (fileSize : Int) (endS : List Char)
    (hfs : 1 ≤ fileSize) (hE : endS ≠ []) :
    (∀ n : Int, pyInt endS = some n →
      rangeFromParts [] endS fileSize =
        (if 0 < n then some (max (fileSize - n) 0, fileSize - 1) else none))
    ∧ (∀ n : Int, pyInt endS = some n → 0 < n → n ≤ fileSize →
        rangeFromParts [] endS fileSize = some (fileSize - n, fileSize - 1))
    ∧ (pyInt endS = none → rangeFromParts [] endS fileSize = none) := by
  have hred := rangeFromParts_suffix endS fileSize hE
  refine ⟨?_, ?_, ?_⟩
  · intro n hn
    rw [hred, hn]
    dsimp only
    by_cases hpos : 0 < n
    · rw [if_neg (by omega), if_pos hpos]
    · rw [if_pos (by omega), if_neg hpos]
  · intro n hn hpos hle
    rw [hred, hn]
    dsimp only
    rw [if_neg (by omega)]
    have : max (fileSize - n) 0 = fileSize - n := by omega
    rw [this]
  · intro hn
    rw [hred, hn]

/-- Witness for C5 at end part `"3"` and file size 10. -/
theorem claim_C5_suffix_range_witness :
    ((1 : Int) ≤ 10 ∧ ("3".toList : List Char) ≠ [] ∧ pyInt "3".toList = some 3
      ∧ 0 < (3 : Int) ∧ (3 : Int) ≤ 10)
    ∧ rangeFromParts [] "3".toList 10 = some (10 - 3, 10 - 1) := by
  have h := claim_C5_suffix_range 10 "3".toList (by decide) (by decide)
  exact ⟨⟨by decide, by decide, by decide, by decide, by decide⟩,
    h.2.1 3 (by decide) (by decide) (by decide)⟩

/-- C7: for every file size, `_parse_range_header` returns `None` — full
content, never an error — when the header is empty, lacks the `bytes=`
prefix, contains a comma in its spec portion, or has both start and end
parts empty. -/
theorem claim_C7_lenient_null (fileSize : Int) :
    parseRangeHeader [] fileSize = none
    ∧ (∀ h : List Char, ("bytes=".toList).isPrefixOf h = false →
        parseRangeHeader h fileSize = none)
    ∧ (∀ h : List Char, (pyStrip (h.drop 6)).contains ',' = true →
        parseRangeHeader h fileSize = none)
    ∧ (∀ h : List Char,
        pyStrip (splitFirst '-' (pyStrip (h.drop 6))).1 = [] →
        pyStrip (splitFirst '-' (pyStrip (h.drop 6))).2 = [] →
        parseRangeHeader h fileSize = none) := by
  refine ⟨rfl, ?_, ?_, ?_⟩
  · intro h hpre
    unfold parseRangeHeader
    by_cases hnil : h = []
    · rw [if_pos hnil]
    · rw [if_neg hnil, if_pos hpre]
  · intro h hcomma
    unfold parseRangeHeader
    by_cases hnil : h = []
    · rw [if_pos hnil]
    · rw [if_neg hnil]
      by_cases hpre : ("bytes=".toList).isPrefixOf h = false
      · rw [if_pos hpre]
      · rw [if_neg hpre]
        dsimp only
        rw [if_pos hcomma]
  · intro h hs he
    unfold parseRangeHeader
    by_cases hnil : h = []
    · rw [if_pos hnil]
    · rw [if_neg hnil]
      by_cases hpre : ("bytes=".toList).isPrefixOf h = false
      · rw [if_pos hpre]
      · rw [if_neg hpre]
        dsimp only
        by_cases hcomma : (pyStrip (h.drop 6)).contains ',' = true
        · rw [if_pos hcomma]
        · rw [if_neg hcomma]
          unfold rangeFromParts
          rw [if_pos ⟨hs, he⟩]

/-- Witness for C7 at concrete malformed headers and file size 10. -/
theorem claim_C7_lenient_null_witness :
    (("bytes=".toList).isPrefixOf "bites=0-5".toList = false
      ∧ parseRangeHeader "bites=0-5".toList 10 = none)
    ∧ ((pyStrip ("bytes=0-1,3-4".toList.drop 6)).contains ',' = true
      ∧ parseRangeHeader "bytes=0-1,3-4".toList 10 = none) := by
  have h := claim_C7_lenient_null 10
  exact ⟨⟨by decide, h.2.1 "bites=0-5".toList (by decide)⟩,
    ⟨by decide, h.2.2.1 "bytes=0-1,3-4".toList (by decide)⟩⟩

/-- C1: for a non-empty file and any range accepted by the parser, the
stream endpoint returns status 206 with `Content-Range: bytes s-e/size`
and `Content-Length = e - s + 1`; the concatenated chunks of
`_iter_file_range` are exactly the file's bytes at offsets `s..e`
inclusive, every chunk is at most `chunkSize` long, and streaming
`[0, size-1]` with any `chunkSize ≥ 1` reassembles the original file. -/
theorem claim_C1_range_streaming (file : List Nat) (rangeHeader : List Char)
    (chunkSize : Nat) (s e : Int)
    (hfl : 1 ≤ file.length) (hc : 1 ≤ chunkSize)
    (hp : parseRangeHeader rangeHeader (file.length : Int) = some (s, e)) :
    ∃ r : StreamResponse Nat,
      streamSongServe true file rangeHeader chunkSize = .ok r
      ∧ r.status = 206
      ∧ r.contentRange = some (contentRangeValue s e (file.length : Int))
      ∧ r.contentLength = e - s + 1
      ∧ r.body = iterFileRange file s.toNat e.toNat chunkSize
      ∧ r.body.flatten = (file.drop s.toNat).take (e.toNat - s.toNat + 1)
      ∧ (∀ ch ∈ r.body, ch.length ≤ chunkSize)
      ∧ (iterFileRange file 0 (file.length - 1) chunkSize).flatten = file := by
  refine ⟨streamRangeResponse file s e chunkSize, ?_, rfl, rfl, rfl, rfl, ?_, ?_, ?_⟩
  · unfold streamSongServe
    rw [if_neg (by simp), if_neg (by omega), hp]
  · show (iterFileRange file s.toNat e.toNat chunkSize).flatten = _
    unfold iterFileRange
    exact goChunks_flatten chunkSize hc file (e.toNat - s.toNat + 1) s.toNat
  · intro ch hch
    exact goChunks_chunk_le chunkSize file (e.toNat - s.toNat + 1) s.toNat ch hch
  · unfold iterFileRange
    rw [goChunks_flatten chunkSize hc file (file.length - 1 - 0 + 1) 0, List.drop_zero]
    have hml : file.length - 1 - 0 + 1 = file.length := by omega
    rw [hml, List.take_length]

/-- Witness for C1 at file `[7, 8, 9]`, header `bytes=1-2`, chunk size 1. -/
theorem claim_C1_range_streaming_witness :
    (1 ≤ [7, 8, 9].length ∧ 1 ≤ 1
      ∧ parseRangeHeader "bytes=1-2".toList (([7, 8, 9] : List Nat).length : Int) = some (1, 2))
    ∧ ∃ r : StreamResponse Nat,
        streamSongServe true [7, 8, 9] "bytes=1-2".toList 1 = .ok r
        ∧ r.status = 206
        ∧ r.contentRange = some (contentRangeValue 1 2 (([7, 8, 9] : List Nat).length : Int))
        ∧ r.contentLength = (2 : Int) - 1 + 1
        ∧ r.body = iterFileRange [7, 8, 9] (1 : Int).toNat (2 : Int).toNat 1
        ∧ r.body.flatten = (([7, 8, 9] : List Nat).drop (1 : Int).toNat).take
            ((2 : Int).toNat - (1 : Int).toNat + 1)
        ∧ (∀ ch ∈ r.body, ch.length ≤ 1)
        ∧ (iterFileRange ([7, 8, 9] : List Nat) 0 ([7, 8, 9].length - 1) 1).flatten = [7, 8, 9] :=
  ⟨⟨by decide, by decide, by decide⟩,
    claim_C1_range_streaming [7, 8, 9] "bytes=1-2".toList 1 1 2
      (by decide) (by decide) (by decide)⟩

/-- C9: a stream request whose resolved file has size `≤ 0` is answered
with the 404 error carrying the `{error: "not_found", message: ...}` shape
— identical to a missing file — and never with a 200/206 response. -/
theorem claim_C9_zero_size_404 (isFile : Bool) (file : List Nat) (rangeHeader : List Char)
    (chunkSize : Nat) (hsz : (file.length : Int) ≤ 0) :
    streamSongServe isFile file rangeHeader chunkSize = .error (json404 "File missing on server.")
    ∧ (json404 "File missing on server.").error = "not_found"
    ∧ ∀ r : StreamResponse Nat, streamSongServe isFile file rangeHeader chunkSize ≠ .ok r := by
  have h1 : streamSongServe isFile file rangeHeader chunkSize =
      .error (json404 "File missing on server.") := by
    unfold streamSongServe
    by_cases hf : isFile = false
    · rw [if_pos hf]
    · rw [if_neg hf, if_pos hsz]
  exact ⟨h1, rfl, fun r hr => by rw [h1] at hr; exact absurd hr (by simp)⟩

/-- Witness for C9 at the empty file. -/
theorem claim_C9_zero_size_404_witness :
    ((([] : List Nat).length : Int) ≤ 0)
    ∧ streamSongServe true ([] : List Nat) [] 1 = .error (json404 "File missing on server.") :=
  ⟨by decide, (claim_C9_zero_size_404 true [] [] 1 (by decide)).1⟩

/-- `find?` on a two-element list, written as nested conditionals. -/
lemma find?_pair {α : Type} (p : α → Bool) (a b : α) :
    List.find? p [a, b] = (if p a then some a else if p b then some b else none) := by
  by_cases ha : p a = true
  · rw [List.find?_cons_of_pos _ ha, if_pos ha]
  · rw [List.find?_cons_of_neg _ ha, if_neg ha]
    by_cases hb : p b = true
    · rw [List.find?_cons_of_pos _ hb, if_pos hb]
    · rw [List.find?_cons_of_neg _ hb, if_neg hb, List.find?_nil]

/-- C2: a non-empty relative stored reference whose normalized join with the
media root is not a descendant of the media root is rejected with the
`FileMissing` error, whose value (hence shape) is identical to the genuine
not-found error for an empty reference; moreover every successful resolution
of any relative reference lies under the media root or the backend root
(fallbacks are re-validated against the backend root). -/
theorem claim_C2_traversal_rejected (fsm : FSModel) (mediaRoot backendRoot : List (List Char))
    (ref : List Char)
    (h1 : ref ≠ []) (h2 : isAbsolute ref = false)
    (h3 : mediaRoot.isPrefixOf (normSegs (mediaRoot ++ relSegs ref)) = false) :
    resolveSongMediaPath fsm mediaRoot backendRoot ref =
      .error (json404 "File missing on server.")
    ∧ (json404 "File missing on server.").error = "not_found"
    ∧ resolveSongMediaPath fsm mediaRoot backendRoot [] =
      .error (json404 "File missing on server.")
    ∧ ∀ (fsm2 : FSModel) (ref2 : List Char) (p : List (List Char)),
        ref2 ≠ [] → isAbsolute ref2 = false →
        resolveSongMediaPath fsm2 mediaRoot backendRoot ref2 = .ok p →
        (mediaRoot.isPrefixOf p = true ∨ backendRoot.isPrefixOf p = true) := by
  refine ⟨?_, rfl, rfl, ?_⟩
  · unfold resolveSongMediaPath
    rw [if_neg h1, if_neg (by simp [h2])]
    dsimp only
    rw [if_pos h3]
  · intro fsm2 ref2 p hne habs hok
    unfold resolveSongMediaPath at hok
    rw [if_neg hne, if_neg (by simp [habs])] at hok
    dsimp only at hok
    by_cases hpre : mediaRoot.isPrefixOf (normSegs (mediaRoot ++ relSegs ref2)) = false
    · rw [if_pos hpre] at hok
      exact absurd hok (by simp)
    · rw [if_neg hpre] at hok
      have hpre2 : mediaRoot.isPrefixOf (normSegs (mediaRoot ++ relSegs ref2)) = true := by
        revert hpre
        cases mediaRoot.isPrefixOf (normSegs (mediaRoot ++ relSegs ref2)) <;> simp
      by_cases hfile : fsm2.isFile (normSegs (mediaRoot ++ relSegs ref2)) = true
      · rw [if_pos hfile] at hok
        injection hok with hcp
        subst hcp
        exact Or.inl hpre2
      · rw [if_neg hfile] at hok
        cases hfind : ([normSegs (backendRoot ++ ("media".toList :: relSegs ref2)),
            normSegs (backendRoot ++ relSegs ref2)].find?
              (fun fb => backendRoot.isPrefixOf fb && fsm2.isFile fb)) with
        | some fb =>
          rw [hfind] at hok
          dsimp only at hok
          injection hok with hcp
          subst hcp
          have hfb := List.find?_some hfind
          simp only [Bool.and_eq_true] at hfb
          exact Or.inr hfb.1
        | none =>
          rw [hfind] at hok
          dsimp only at hok
          injection hok with hcp
          subst hcp
          exact Or.inl hpre2

/-- Witness for C2 at stored reference `"../x"` with media root `/m`. -/
theorem claim_C2_traversal_rejected_witness :
    (("../x".toList : List Char) ≠ [] ∧ isAbsolute "../x".toList = false
      ∧ ([["m".toList].head!].isPrefixOf
          (normSegs (["m".toList] ++ relSegs "../x".toList)) = false))
    ∧ resolveSongMediaPath ⟨fun _ => false⟩ ["m".toList] ["b".toList] "../x".toList =
        .error (json404 "File missing on server.") :=
  ⟨⟨by decide, by decide, by decide⟩,
    (claim_C2_traversal_rejected ⟨fun _ => false⟩ ["m".toList] ["b".toList] "../x".toList
      (by decide) (by decide) (by decide)).1⟩

/-- C8: when the primary media-root candidate passes the traversal check
but is not an existing regular file, the resolver returns the first of the
ordered fallbacks `backendRoot/media/ref`, `backendRoot/ref` that both
passes the backend-root descendant check and is a regular file, and the
primary candidate when neither does. -/
theorem claim_C8_fallback_resolution (fsm : FSModel) (mediaRoot backendRoot : List (List Char))
    (ref : List Char) (h1 : ref ≠ []) (h2 : isAbsolute ref = false)
    (h3 : mediaRoot.isPrefixOf (normSegs (mediaRoot ++ relSegs ref)) = true)
    (h4 : fsm.isFile (normSegs (mediaRoot ++ relSegs ref)) = false) :
    resolveSongMediaPath fsm mediaRoot backendRoot ref =
      .ok (if backendRoot.isPrefixOf (normSegs (backendRoot ++ ("media".toList :: relSegs ref)))
              && fsm.isFile (normSegs (backendRoot ++ ("media".toList :: relSegs ref))) then
            normSegs (backendRoot ++ ("media".toList :: relSegs ref))
          else if backendRoot.isPrefixOf (normSegs (backendRoot ++ relSegs ref))
              && fsm.isFile (normSegs (backendRoot ++ relSegs ref)) then
            normSegs (backendRoot ++ relSegs ref)
          else normSegs (mediaRoot ++ relSegs ref)) := by
  unfold resolveSongMediaPath
  rw [if_neg h1, if_neg (by simp [h2])]
  dsimp only
  rw [if_neg (by simp [h3]), if_neg (by simp [h4]), find?_pair]
  by_cases hb1 : (backendRoot.isPrefixOf (normSegs (backendRoot ++ ("media".toList :: relSegs ref)))
      && fsm.isFile (normSegs (backendRoot ++ ("media".toList :: relSegs ref)))) = true
  · rw [if_pos hb1, if_pos hb1]
  · rw [if_neg hb1, if_neg hb1]
    by_cases hb2 : (backendRoot.isPrefixOf (normSegs (backendRoot ++ relSegs ref))
        && fsm.isFile (normSegs (backendRoot ++ relSegs ref))) = true
    · rw [if_pos hb2, if_pos hb2]
    · rw [if_neg hb2, if_neg hb2]

/-- Witness for C8: media root `/m`, backend root `/b`, reference `x`,
a filesystem whose only regular file is `/b/media/x`. -/
theorem claim_C8_fallback_resolution_witness :
    (("x".toList : List Char) ≠ [] ∧ isAbsolute "x".toList = false
      ∧ (["m".toList] : List (List Char)).isPrefixOf
          (normSegs (["m".toList] ++ relSegs "x".toList)) = true
      ∧ (FSModel.mk (fun p => p == ["b".toList, "media".toList, "x".toList])).isFile
          (normSegs (["m".toList] ++ relSegs "x".toList)) = false)
    ∧ resolveSongMediaPath (FSModel.mk (fun p => p == ["b".toList, "media".toList, "x".toList]))
        ["m".toList] ["b".toList] "x".toList =
      .ok (if (["b".toList] : List (List Char)).isPrefixOf
              (normSegs (["b".toList] ++ ("media".toList :: relSegs "x".toList)))
              && (FSModel.mk (fun p => p == ["b".toList, "media".toList, "x".toList])).isFile
                (normSegs (["b".toList] ++ ("media".toList :: relSegs "x".toList))) then
            normSegs (["b".toList] ++ ("media".toList :: relSegs "x".toList))
          else if (["b".toList] : List (List Char)).isPrefixOf
              (normSegs (["b".toList] ++ relSegs "x".toList))
              && (FSModel.mk (fun p => p == ["b".toList, "media".toList, "x".toList])).isFile
                (normSegs (["b".toList] ++ relSegs "x".toList)) then
            normSegs (["b".toList] ++ relSegs "x".toList)
          else normSegs (["m".toList] ++ relSegs "x".toList)) :=
  ⟨⟨by decide, by decide, by decide, by decide⟩,
    claim_C8_fallback_resolution (FSModel.mk (fun p => p == ["b".toList, "media".toList, "x".toList]))
      ["m".toList] ["b".toList] "x".toList (by decide) (by decide) (by decide) (by decide)⟩

/-- C6 counterexample: the claim reads `_sanitize_filename` as replacing
every character outside `[A-Za-z0-9._-]` with one underscore each, but the
regex quantifier `+` collapses a run: on `"a  b.mp3"` (two spaces) the code
produces `"a_b.mp3"`, not the per-character `"a__b.mp3"`. -/
theorem claim_C6_counterexample :
    sanitizeFilename "a  b.mp3".toList = "a_b.mp3".toList
    ∧ sanitizeFilenamePerChar "a  b.mp3".toList = "a__b.mp3".toList
    ∧ sanitizeFilename "a  b.mp3".toList ≠ sanitizeFilenamePerChar "a  b.mp3".toList :=
  ⟨by decide, by decide, by decide⟩

/-- C6 (amended): `_sanitize_filename` strips leading/trailing whitespace,
replaces each path separator with `_`, replaces each maximal run of
remaining characters outside `[A-Za-z0-9._-]` with a single `_` (so each
separator yields its own underscore, but a run of other offending
characters collapses to one), and substitutes `"upload.mp3"` when empty;
`"a b.mp3"` becomes `"a_b.mp3"`, every output character is in the allowed
class (hence never a path separator), and the output is never empty. -/
theorem claim_C6_sanitize_amended :
    sanitizeFilename "a b.mp3".toList = "a_b.mp3".toList
    ∧ sanitizeFilename "  a.mp3  ".toList = "a.mp3".toList
    ∧ sanitizeFilename "a  b.mp3".toList = "a_b.mp3".toList
    ∧ sanitizeFilename "a\\/b.mp3".toList = "a__b.mp3".toList
    ∧ sanitizeFilename "".toList = "upload.mp3".toList
    ∧ (∀ (name : List Char) (c : Char), c ∈ sanitizeFilename name →
        isAllowed c = true ∧ c ≠ '/' ∧ c ≠ '\\')
    ∧ (∀ name : List Char, sanitizeFilename name ≠ []) := by
  refine ⟨by decide, by decide, by decide, by decide, by decide, ?_, sanitizeFilename_ne_nil⟩
  intro name c hc
  have hall := sanitizeFilename_mem_allowed name c hc
  exact ⟨hall, isAllowed_ne_sep c hall⟩

/-- Witness for C6 (amended) at the character `a` of the sanitized
`"a b.mp3"`. -/
theorem claim_C6_sanitize_amended_witness :
    ('a' ∈ sanitizeFilename "a b.mp3".toList)
    ∧ (isAllowed 'a' = true ∧ 'a' ≠ '/' ∧ 'a' ≠ '\\') :=
  ⟨by decide, claim_C6_sanitize_amended.2.2.2.2.2.1 "a b.mp3".toList 'a' (by decide)⟩

/-- C10: a stored filename `{uuid4}_{sanitized name}` contains no path
separator, is relative, forms a single path segment, always passes the
media-root traversal check (for any `..`-free media root), and hence makes
the resolver's `FileMissing`-on-traversal branch unreachable: resolution
always succeeds with some path. -/
theorem claim_C10_stored_filename_safe (uuidStr origName : List Char)
    (h1 : uuidStr ≠ []) (h2 : ∀ c ∈ uuidStr, isUuidChar c = true) :
    (∀ c ∈ storedFilenameFor uuidStr origName, c ≠ '/' ∧ c ≠ '\\')
    ∧ isAbsolute (storedFilenameFor uuidStr origName) = false
    ∧ relSegs (storedFilenameFor uuidStr origName) = [storedFilenameFor uuidStr origName]
    ∧ (∀ mediaRoot : List (List Char), (∀ s ∈ mediaRoot, s ≠ ['.', '.']) →
        mediaRoot.isPrefixOf
          (normSegs (mediaRoot ++ relSegs (storedFilenameFor uuidStr origName))) = true)
    ∧ (∀ (fsm : FSModel) (mediaRoot backendRoot : List (List Char)),
        (∀ s ∈ mediaRoot, s ≠ ['.', '.']) →
        ∃ p, resolveSongMediaPath fsm mediaRoot backendRoot
              (storedFilenameFor uuidStr origName) = .ok p) := by
  have hchars : ∀ c ∈ storedFilenameFor uuidStr origName, c ≠ '/' ∧ c ≠ '\\' := by
    intro c hc
    unfold storedFilenameFor at hc
    rcases List.mem_append.mp hc with hu | hrest
    · exact isUuidChar_ne_sep c (h2 c hu)
    · rcases List.mem_cons.mp hrest with rfl | hsan
      · exact ⟨by decide, by decide⟩
      · exact isAllowed_ne_sep c (sanitizeFilename_mem_allowed origName c hsan)
  have habs : isAbsolute (storedFilenameFor uuidStr origName) = false := by
    cases huu : uuidStr with
    | nil => exact absurd huu h1
    | cons c rest =>
      have hcne : c ≠ '/' := (isUuidChar_ne_sep c (h2 c (by rw [huu]; exact List.mem_cons_self c rest))).1
      show isAbsolute ((c :: rest) ++ '_' :: sanitizeFilename origName) = false
      simp [isAbsolute, hcne]
  have hne2 : storedFilenameFor uuidStr origName ≠ [] := by
    unfold storedFilenameFor
    cases uuidStr with
    | nil => exact absurd rfl h1
    | cons c rest => simp
  have hmem : '_' ∈ storedFilenameFor uuidStr origName := by
    unfold storedFilenameFor
    exact List.mem_append.mpr (Or.inr (List.mem_cons_self _ _))
  have hdot1 : storedFilenameFor uuidStr origName ≠ ['.'] := by
    intro hx
    rw [hx] at hmem
    exact absurd hmem (by decide)
  have hdot2 : storedFilenameFor uuidStr origName ≠ ['.', '.'] := by
    intro hx
    rw [hx] at hmem
    exact absurd hmem (by decide)
  have hslash : '/' ∉ storedFilenameFor uuidStr origName := fun hm => (hchars _ hm).1 rfl
  have hsegs : relSegs (storedFilenameFor uuidStr origName) =
      [storedFilenameFor uuidStr origName] := by
    unfold relSegs
    rw [splitOnSlash_no_slash _ hslash]
    have hp : (!(storedFilenameFor uuidStr origName == [])
        && !(storedFilenameFor uuidStr origName == ['.'])) = true := by
      simp [hne2, hdot1]
    simp only [List.filter_cons, List.filter_nil]
    rw [if_pos hp]
  have hnorm : ∀ mediaRoot : List (List Char), (∀ s ∈ mediaRoot, s ≠ ['.', '.']) →
      normSegs (mediaRoot ++ relSegs (storedFilenameFor uuidStr origName)) =
        mediaRoot ++ [storedFilenameFor uuidStr origName] := by
    intro mr hmr
    rw [hsegs]
    apply normSegs_append_clean
    intro s hs
    rcases List.mem_append.mp hs with hsm | hss
    · exact hmr s hsm
    · rcases List.mem_cons.mp hss with rfl | hfalse
      · exact hdot2
      · exact absurd hfalse (by simp)
  have hpre : ∀ mediaRoot : List (List Char), (∀ s ∈ mediaRoot, s ≠ ['.', '.']) →
      mediaRoot.isPrefixOf
        (normSegs (mediaRoot ++ relSegs (storedFilenameFor uuidStr origName))) = true := by
    intro mr hmr
    rw [hnorm mr hmr]
    exact isPrefixOf_append_self mr _
  refine ⟨hchars, habs, hsegs, hpre, ?_⟩
  intro fsm mr br hmr
  unfold resolveSongMediaPath
  rw [if_neg hne2, if_neg (by simp [habs])]
  dsimp only
  rw [if_neg (by simp [hpre mr hmr])]
  by_cases hf : fsm.isFile (normSegs (mr ++ relSegs (storedFilenameFor uuidStr origName))) = true
  · rw [if_pos hf]
    exact ⟨_, rfl⟩
  · rw [if_neg hf, find?_pair]
    by_cases hb1 : (br.isPrefixOf (normSegs (br ++ ("media".toList ::
        relSegs (storedFilenameFor uuidStr origName))))
        && fsm.isFile (normSegs (br ++ ("media".toList ::
        relSegs (storedFilenameFor uuidStr origName))))) = true
    · rw [if_pos hb1]
      exact ⟨_, rfl⟩
    · rw [if_neg hb1]
      by_cases hb2 : (br.isPrefixOf (normSegs (br ++ relSegs (storedFilenameFor uuidStr origName)))
          && fsm.isFile (normSegs (br ++ relSegs (storedFilenameFor uuidStr origName)))) = true
      · rw [if_pos hb2]
        exact ⟨_, rfl⟩
      · rw [if_neg hb2]
        exact ⟨_, rfl⟩

/-- Witness for C10 at the UUID-like string `1f-a` and original name
`"s ng.mp3"`, checking the single-segment conjunct. -/
theorem claim_C10_stored_filename_safe_witness :
    (("1f-a".toList : List Char) ≠ [] ∧ (∀ c ∈ "1f-a".toList, isUuidChar c = true))
    ∧ relSegs (storedFilenameFor "1f-a".toList "s ng.mp3".toList) =
        [storedFilenameFor "1f-a".toList "s ng.mp3".toList] :=
  ⟨⟨by decide, by decide⟩,
    (claim_C10_stored_filename_safe "1f-a".toList "s ng.mp3".toList
      (by decide) (by decide)).2.2.1⟩

end MusicLib
